import Mathlib

/-!
Verification of the Mini-ClashRoyale analytics engine
(`src/analytics/deck_type.py` and `src/analytics/user_analytics.py`).

The Python code is shallowly embedded:
* card metadata (`card_metadata.json`, looked up through `_get_card_meta`,
  which returns an empty record for unknown names) is a total function
  `String → CardMeta`, mirroring the defaulting lookup;
* Python numbers are modelled by `ℚ`;
* a battle dict is a `Battle` record whose fields are `Option`s,
  `none` meaning the key is absent from the dict;
* insertion-ordered Python dicts are association lists updated in place
  (`updateAList`), new keys appended at the end, exactly as CPython dicts
  preserve insertion order;
* Python's stable `list.sort(key=k, reverse=True)` is
  `List.insertionSort` with the relation "my key is ≥ the other key",
  which is the same stable descending sort;
* a Python function that can raise on its input returns an `Option`,
  `none` standing for the raised exception.
-/

/-- One entry of the static card-metadata table (`card_metadata.json`):
an optional numeric elixir cost and three boolean archetype flags.
Missing fields default exactly like `dict.get` on a missing key. -/
structure CardMeta where
  elixir : Option ℚ := none
  is_bait_piece : Bool := false
  is_bridge_spam_piece : Bool := false
  is_big_tank : Bool := false

/-- The metadata lookup `_get_card_meta`: total, returns the default
(empty) record for unknown card names, so it is just a function. -/
abbrev CardTable := String → CardMeta

/-- Constant `ARCHETYPE_SIEGE` from `deck_type.py`. -/
def ARCHETYPE_SIEGE : String := "Siege"

/-- Constant `ARCHETYPE_BAIT` from `deck_type.py`. -/
def ARCHETYPE_BAIT : String := "Bait"

/-- Constant `ARCHETYPE_CYCLE` from `deck_type.py`. -/
def ARCHETYPE_CYCLE : String := "Cycle"

/-- Constant `ARCHETYPE_BRIDGE_SPAM` from `deck_type.py`. -/
def ARCHETYPE_BRIDGE_SPAM : String := "Bridge Spam"

/-- Constant `ARCHETYPE_BEATDOWN` from `deck_type.py`. -/
def ARCHETYPE_BEATDOWN : String := "Beatdown"

/-- Constant `ARCHETYPE_HYBRID` from `deck_type.py`. -/
def ARCHETYPE_HYBRID : String := "Hybrid"

/-- The derived feature record returned by `_precompute_deck_values`. -/
structure DeckValues where
  avg_elixir : ℚ
  four_card_cycle_cost : ℚ
  has_xbow : Bool
  has_mortar : Bool
  bait_pieces : Nat
  has_bait_core : Bool
  bridge_spam_count : Nat
  big_tank_count : Nat

/-- Embedding of `_precompute_deck_values` (`deck_type.py`, lines 37-90).
`sorted(elixirs)[:4]` is `(List.insertionSort (· ≤ ·) elixirs).take 4`;
set intersection with the singletons is `List.contains`. -/
def _precompute_deck_values (tbl : CardTable) (cards : List String) : DeckValues :=
  let metas := cards.map tbl
  let elixirs : List ℚ := metas.filterMap (fun m => m.elixir)
  let avg_elixir : ℚ := if elixirs.length = 0 then 3 else elixirs.sum / 8
  let four_cycle : ℚ :=
    if elixirs.length = 0 then 12
    else ((List.insertionSort (· ≤ ·) elixirs).take 4).sum
  let bait_pieces : Nat := metas.countP (fun m => m.is_bait_piece)
  let has_goblin_barrel : Bool := cards.contains ("Goblin Barrel")
  { avg_elixir := avg_elixir
    four_card_cycle_cost := four_cycle
    has_xbow := cards.contains ("X-Bow")
    has_mortar := cards.contains ("Mortar")
    bait_pieces := bait_pieces
    has_bait_core := has_goblin_barrel && decide (1 ≤ bait_pieces)
    bridge_spam_count := metas.countP (fun m => m.is_bridge_spam_piece)
    big_tank_count := metas.countP (fun m => m.is_big_tank) }

/-- Embedding of `classify_deck` (`deck_type.py`, lines 93-161):
the priority cascade exactly as written in the source, including the
redundant `bait_pieces >= 1` conjunct of rule B1. -/
def classify_deck (tbl : CardTable) (cards : List String) : String :=
  if cards = [] then ARCHETYPE_HYBRID
  else
    let v := _precompute_deck_values tbl cards
    if v.has_xbow then ARCHETYPE_SIEGE
    else if v.has_mortar then ARCHETYPE_SIEGE
    else if v.has_bait_core && decide (1 ≤ v.bait_pieces) then ARCHETYPE_BAIT
    else if v.four_card_cycle_cost ≤ 9 then ARCHETYPE_CYCLE
    else if 2 ≤ v.bridge_spam_count then ARCHETYPE_BRIDGE_SPAM
    else if 1 ≤ v.big_tank_count ∧ (3.5 : ℚ) ≤ v.avg_elixir then ARCHETYPE_BEATDOWN
    else ARCHETYPE_HYBRID

/-- The rule cascade exactly as the specification words it (spec §4.2
step 2 and claim C1): the first matching rule of `has_xbow → Siege`,
`has_mortar → Siege`, `has_bait_core → Bait`,
`four_card_cycle_cost ≤ 9 → Cycle`, `bridge_spam_count ≥ 2 → Bridge
Spam`, `big_tank_count ≥ 1 ∧ avg_elixir ≥ 3.5 → Beatdown`, otherwise
`Hybrid`, with the empty deck short-circuiting to `Hybrid`.  Written
from the spec's words, to be compared with `classify_deck`. -/
def classify_spec_cascade (tbl : CardTable) (cards : List String) : String :=
  if cards = [] then ARCHETYPE_HYBRID
  else
    let v := _precompute_deck_values tbl cards
    if v.has_xbow then ARCHETYPE_SIEGE
    else if v.has_mortar then ARCHETYPE_SIEGE
    else if v.has_bait_core then ARCHETYPE_BAIT
    else if v.four_card_cycle_cost ≤ 9 then ARCHETYPE_CYCLE
    else if 2 ≤ v.bridge_spam_count then ARCHETYPE_BRIDGE_SPAM
    else if 1 ≤ v.big_tank_count ∧ (3.5 : ℚ) ≤ v.avg_elixir then ARCHETYPE_BEATDOWN
    else ARCHETYPE_HYBRID

/-- The list of known elixir values of a deck (spec §4.2 step 1):
the elixir entries of the cards whose metadata has one. -/
def knownElixirs (tbl : CardTable) (cards : List String) : List ℚ :=
  (cards.map tbl).filterMap (fun m => m.elixir)

lemma bait_core_absorb (tbl : CardTable) (cards : List String) :
    ((_precompute_deck_values tbl cards).has_bait_core
      && decide (1 ≤ (_precompute_deck_values tbl cards).bait_pieces))
    = (_precompute_deck_values tbl cards).has_bait_core := by
  simp only [_precompute_deck_values, Bool.and_assoc, Bool.and_self]

/-- Claim C1: for every metadata table and every deck, `classify_deck`
returns the label of the first matching rule in the strict priority
order `has_xbow → Siege`, `has_mortar → Siege`, `has_bait_core → Bait`,
`four_card_cycle_cost ≤ 9 → Cycle`, `bridge_spam_count ≥ 2 → Bridge
Spam`, `big_tank_count ≥ 1 ∧ avg_elixir ≥ 3.5 → Beatdown`, otherwise
`Hybrid` (formalised as the spec-side cascade `classify_spec_cascade`),
and the empty deck yields `Hybrid`. -/
theorem claim_C1 (tbl : CardTable) (cards : List String) :
    classify_deck tbl cards = classify_spec_cascade tbl cards
    ∧ classify_deck tbl [] = ARCHETYPE_HYBRID := by
  constructor
  · unfold classify_deck classify_spec_cascade
    by_cases h : cards = []
    · simp [h]
    · simp only [if_neg h]
      rw [bait_core_absorb]
  · rfl

/-- Claim C4: for every metadata table and deck, when the list of known
elixir values is empty `avg_elixir = 3` and `four_card_cycle_cost = 12`;
otherwise `avg_elixir` is the sum of the known elixirs divided by 8
(never by the number of known elixirs or the deck length) and
`four_card_cycle_cost` is the sum of the four lowest known elixir
values — all of them when fewer than four exist. -/
theorem claim_C4 (tbl : CardTable) (cards : List String) :
    ((_precompute_deck_values tbl cards).avg_elixir
      = if knownElixirs tbl cards = [] then 3 else (knownElixirs tbl cards).sum / 8)
    ∧ ((_precompute_deck_values tbl cards).four_card_cycle_cost
      = if knownElixirs tbl cards = [] then 12
        else ((List.insertionSort (· ≤ ·) (knownElixirs tbl cards)).take 4).sum)
    ∧ (if knownElixirs tbl cards ≠ [] ∧ (knownElixirs tbl cards).length < 4
        then (_precompute_deck_values tbl cards).four_card_cycle_cost
          = (knownElixirs tbl cards).sum
        else True) := by
  refine ⟨?_, ?_, ?_⟩
  · simp only [_precompute_deck_values, knownElixirs, List.length_eq_zero]
  · simp only [_precompute_deck_values, knownElixirs, List.length_eq_zero]
  · by_cases h : knownElixirs tbl cards ≠ [] ∧ (knownElixirs tbl cards).length < 4
    · rw [if_pos h]
      have hlen : (List.insertionSort (· ≤ ·) (knownElixirs tbl cards)).length
          = (knownElixirs tbl cards).length :=
        (List.perm_insertionSort _ _).length_eq
      have htake : (List.insertionSort (· ≤ ·) (knownElixirs tbl cards)).take 4
          = List.insertionSort (· ≤ ·) (knownElixirs tbl cards) := by
        apply List.take_of_length_le
        rw [hlen]
        exact Nat.le_of_lt h.2
      have hsum : (List.insertionSort (· ≤ ·) (knownElixirs tbl cards)).sum
          = (knownElixirs tbl cards).sum :=
        (List.perm_insertionSort _ _).sum_eq
      have hne : ¬ (knownElixirs tbl cards).length = 0 := by
        intro h0
        exact h.1 (List.length_eq_zero.mp h0)
      simp only [_precompute_deck_values, knownElixirs] at *
      rw [if_neg hne, htake, hsum]
    · rw [if_neg h]
      trivial

/-- A normalized battle dict.  Each field is the value of the
corresponding key; `none` means the key is absent from the dict. -/
structure Battle where
  my_cards : Option (List String) := none
  opp_cards : Option (List String) := none
  result : Option String := none

/-- The four counters of one stat bucket, as initialised by the
`defaultdict` factories and `_init_type_bucket`. -/
structure Stats where
  games : Nat := 0
  wins : Nat := 0
  losses : Nat := 0
  draws : Nat := 0
deriving DecidableEq

/-- One bucket update as performed by `_card_stats_from_rows`, the
`ms` branch of `compute_deck_performance` and `summarize_deck_types`:
increment `games`, then `wins` on exactly `"win"`, `losses` on exactly
`"loss"`, and `draws` on anything else (including a missing value). -/
def bump (r : Option String) (s : Stats) : Stats :=
  if r = some ("win") then { s with games := s.games + 1, wins := s.wins + 1 }
  else if r = some ("loss") then { s with games := s.games + 1, losses := s.losses + 1 }
  else { s with games := s.games + 1, draws := s.draws + 1 }

/-- The `os` branch of `compute_deck_performance` (lines 188-195):
the player's `"win"` increments the opponent bucket's `losses` and the
player's `"loss"` its `wins`; anything else increments `draws`. -/
def bumpInv (r : Option String) (s : Stats) : Stats :=
  if r = some ("win") then { s with games := s.games + 1, losses := s.losses + 1 }
  else if r = some ("loss") then { s with games := s.games + 1, wins := s.wins + 1 }
  else { s with games := s.games + 1, draws := s.draws + 1 }

/-- In-place update of an insertion-ordered dict, modelled as an
association list: existing keys are updated in place, new keys are
appended at the end (CPython dicts preserve insertion order). -/
def updateAList {K : Type} [DecidableEq K] (k : K) (f : Stats → Stats) :
    List (K × Stats) → List (K × Stats)
  | [] => [(k, f {})]
  | (k', v) :: rest =>
    if k' = k then (k', f v) :: rest else (k', v) :: updateAList k f rest

/-- The accumulation loop shared by all three summarizers: fold the
`(key, result)` pairs into a dict of stat buckets with the given
per-bucket update. -/
def aggregate {K : Type} [DecidableEq K] (f : Option String → Stats → Stats)
    (pairs : List (K × Option String)) : List (K × Stats) :=
  pairs.foldl (fun acc kr => updateAList kr.1 (f kr.2) acc) []

/-- One finalized output record (the dicts appended by
`_card_stats_from_rows`, `_deck_dicts` and `_finalize_stats`); `key`
stands for the `card` / `deck` / `type` field. -/
structure StatRow (K : Type) where
  key : K
  games : Nat
  wins : Nat
  losses : Nat
  draws : Nat
  win_rate : ℚ
deriving DecidableEq

/-- The win-rate formula `s["wins"] / s["games"] if s["games"] > 0 else 0.0`. -/
def winRate (s : Stats) : ℚ :=
  if 0 < s.games then (s.wins : ℚ) / (s.games : ℚ) else 0

/-- Build one finalized record from a key and its bucket. -/
def mkRow {K : Type} (k : K) (s : Stats) : StatRow K :=
  { key := k, games := s.games, wins := s.wins, losses := s.losses,
    draws := s.draws, win_rate := winRate s }

/-- Python's lexicographic order on the sort key `(win_rate, games)`. -/
def keyLe (p q : ℚ × Nat) : Prop := p.1 < q.1 ∨ (p.1 = q.1 ∧ p.2 ≤ q.2)

instance (p q : ℚ × Nat) : Decidable (keyLe p q) :=
  inferInstanceAs (Decidable (p.1 < q.1 ∨ (p.1 = q.1 ∧ p.2 ≤ q.2)))

/-- The composite sort key `(x["win_rate"], x["games"])`. -/
def rowKey {K : Type} (x : StatRow K) : ℚ × Nat := (x.win_rate, x.games)

/-- `x` may come before `y` in a `reverse=True` sort on the composite
key: `x`'s key is ≥ `y`'s.  A stable sort by this relation is exactly
Python's stable descending `list.sort(key=..., reverse=True)`. -/
def rowDesc {K : Type} (x y : StatRow K) : Prop := keyLe (rowKey y) (rowKey x)

/-- Ascending counterpart, used when `sort_desc` is `False`. -/
def rowAsc {K : Type} (x y : StatRow K) : Prop := keyLe (rowKey x) (rowKey y)

instance {K : Type} (x y : StatRow K) : Decidable (rowDesc x y) :=
  inferInstanceAs (Decidable (keyLe (rowKey y) (rowKey x)))

instance {K : Type} (x y : StatRow K) : Decidable (rowAsc x y) :=
  inferInstanceAs (Decidable (keyLe (rowKey x) (rowKey y)))

/-- `games`-descending order used by `_finalize_stats`. -/
def gamesDesc {K : Type} (x y : StatRow K) : Prop := y.games ≤ x.games

instance {K : Type} (x y : StatRow K) : Decidable (gamesDesc x y) :=
  inferInstanceAs (Decidable (y.games ≤ x.games))

/-- The shared finalization of `_card_stats_from_rows` and
`_deck_dicts`: drop buckets with `games < min_games`, build the output
records in dict insertion order, then stable-sort by the composite key
`(win_rate, games)`, descending when `sort_desc`. -/
def finalizeFilterSort {K : Type} (stats : List (K × Stats)) (min_games : ℤ)
    (sort_desc : Bool) : List (StatRow K) :=
  let out := stats.filterMap (fun p =>
    if (p.2.games : ℤ) < min_games then none else some (mkRow p.1 p.2))
  if sort_desc then List.insertionSort rowDesc out else List.insertionSort rowAsc out

/-- Embedding of `_card_stats_from_rows` (`user_analytics.py`, lines
71-113): accumulate the `(card, result)` rows, filter by `min_games`,
compute win rates and sort. -/
def _card_stats_from_rows (rows : List (String × Option String)) (min_games : ℤ)
    (sort_desc : Bool) : List (StatRow String) :=
  finalizeFilterSort (aggregate bump rows) min_games sort_desc

/-- Result inversion of the opponent rows in `compute_card_performance`
(lines 131-138). -/
def invert_result (r : Option String) : String :=
  if r = some ("win") then "loss" else if r = some ("loss") then "win" else "draw"

/-- The `rows_my` list built by `compute_card_performance` on its
non-raising path: one `(card, result)` row per card of `my_cards` per
battle, in order.  Here a missing `my_cards` is a `None`-filled
DataFrame cell, which `row.get("my_cards", []) or []` turns into the
empty list (see `compute_card_performance` for the raising case). -/
def rowsMy (battles : List Battle) : List (String × Option String) :=
  battles.flatMap (fun b => (b.my_cards.getD []).map (fun c => (c, b.result)))

/-- The `rows_opp` list built by `compute_card_performance` on its
non-raising path: one `(card, inverted result)` row per card of
`opp_cards` per battle. -/
def rowsOpp (battles : List Battle) : List (String × Option String) :=
  battles.flatMap (fun b =>
    (b.opp_cards.getD []).map (fun c => (c, some (invert_result b.result))))

/-- The dict returned by `compute_card_performance`. -/
structure CardPerf where
  best_cards : List (StatRow String)
  worst_cards : List (StatRow String)
  tough_opp_cards : List (StatRow String)
  easy_opp_cards : List (StatRow String)
deriving DecidableEq

/-- A field that is absent from some battle of the list while present
in another.  `pd.DataFrame` then fills the absent battle's cell with
`NaN` (only a column missing from every battle is filled with `None`
by `build_battles_dataframe`), and `NaN` is truthy, so
`row.get(..., []) or []` keeps the `NaN` and the `for` loop over it
raises `TypeError`. -/
def mixedMissing (battles : List Battle) (proj : Battle → Option (List String)) : Bool :=
  battles.any (fun b => (proj b).isNone) && battles.any (fun b => (proj b).isSome)

/-- Embedding of `build_battles_dataframe` followed by
`compute_card_performance` (`user_analytics.py`, lines 9-35 and
116-153), the composite through which the engine consumes battles.
It returns `none` — modelling the `TypeError` raised on a truthy,
non-iterable `NaN` cell — exactly when `my_cards` or `opp_cards` is
absent from some battle while present in another; otherwise every
missing card field is a `None` cell defaulted to the empty list and
the four card lists are produced. -/
def compute_card_performance (battles : List Battle) (min_games : ℤ) : Option CardPerf :=
  if mixedMissing battles (fun b => b.my_cards)
      || mixedMissing battles (fun b => b.opp_cards) then none
  else
    let my_stats_desc := _card_stats_from_rows (rowsMy battles) min_games true
    let opp_stats_desc := _card_stats_from_rows (rowsOpp battles) min_games true
    some
      { best_cards := my_stats_desc
        worst_cards := my_stats_desc.reverse
        tough_opp_cards := opp_stats_desc
        easy_opp_cards := opp_stats_desc.reverse }

/-- The deck identity key `tuple(sorted(cards))` of
`compute_deck_performance`: the sorted sequence of card names,
duplicates preserved. -/
def deck_key (cards : List String) : List String :=
  List.insertionSort (· ≤ ·) cards

/-- The dict returned by `compute_deck_performance`. -/
structure DeckPerf where
  best_decks : List (StatRow (List String))
  worst_decks : List (StatRow (List String))
  tough_matchups : List (StatRow (List String))
  easy_matchups : List (StatRow (List String))
deriving DecidableEq

/-- Extraction of `(b["result"], b.get("my_cards", []), b.get("opp_cards", []))`
per battle; `none` models the `KeyError` raised by `b["result"]` when a
battle has no `result` key. -/
def battleRows : List Battle → Option (List (String × List String × List String))
  | [] => some []
  | b :: rest =>
    match b.result with
    | none => none
    | some r =>
      (battleRows rest).map (fun rs => (r, b.my_cards.getD [], b.opp_cards.getD []) :: rs)

/-- Embedding of the inner `_deck_dicts` helper of
`compute_deck_performance` (lines 197-216). -/
def _deck_dicts (decks_stats : List (List String × Stats)) (min_games : ℤ) :
    List (StatRow (List String)) :=
  finalizeFilterSort decks_stats min_games true

/-- Embedding of `compute_deck_performance` (`user_analytics.py`, lines
159-226).  Returns `none` when some battle lacks a `result` key,
modelling the `KeyError` the Python loop raises there. -/
def compute_deck_performance (battles : List Battle) (min_games : ℤ) : Option DeckPerf :=
  (battleRows battles).map (fun rows =>
    let my_decks := aggregate bump (rows.map (fun t => (deck_key t.2.1, some t.1)))
    let opp_decks := aggregate bumpInv (rows.map (fun t => (deck_key t.2.2, some t.1)))
    let my_decks_list := _deck_dicts my_decks min_games
    let opp_decks_list := _deck_dicts opp_decks min_games
    { best_decks := my_decks_list
      worst_decks := my_decks_list.reverse
      tough_matchups := opp_decks_list
      easy_matchups := opp_decks_list.reverse })

/-- Python's `str.lower()`, character by character over the string's
data (the card names and results here are ASCII). -/
def strLower (s : String) : String := ⟨s.data.map Char.toLower⟩

/-- The lowered result `(b.get("result") or "").lower()` used by
`summarize_deck_types`. -/
def resultLower (b : Battle) : String := strLower (b.result.getD "")

/-- Embedding of `_finalize_stats` (`deck_type.py`, lines 178-202):
no filtering, win rates per bucket, stable sort by `games` descending. -/
def _finalize_stats (raw : List (String × Stats)) : List (StatRow String) :=
  List.insertionSort gamesDesc (raw.map (fun p => mkRow p.1 p.2))

/-- The `(my_type, result)` pairs fed into the mine-side dict of
`summarize_deck_types`, one per battle in order. -/
def myTypePairs (tbl : CardTable) (battles : List Battle) :
    List (String × Option String) :=
  battles.map (fun b => (classify_deck tbl (b.my_cards.getD []), some (resultLower b)))

/-- The `(opp_type, result)` pairs fed into the opponent-side dict of
`summarize_deck_types`: the label of the opponent's deck with the
player's own (non-inverted) result. -/
def oppTypePairs (tbl : CardTable) (battles : List Battle) :
    List (String × Option String) :=
  battles.map (fun b => (classify_deck tbl (b.opp_cards.getD []), some (resultLower b)))

/-- Embedding of `summarize_deck_types` (`deck_type.py`, lines 205-257). -/
def summarize_deck_types (tbl : CardTable) (battles : List Battle) :
    List (StatRow String) × List (StatRow String) :=
  (_finalize_stats (aggregate bump (myTypePairs tbl battles)),
   _finalize_stats (aggregate bump (oppTypePairs tbl battles)))

/-- The overall summary dict of `compute_summary` (`user_analytics.py`,
lines 41-65). -/
structure Summary where
  games_played : Nat
  wins : Nat
  losses : Nat
  draws : Nat
  win_rate : ℚ
deriving DecidableEq

/-- Embedding of `compute_summary`: counts of exact `"win"` / `"loss"` /
`"draw"` result values over the whole battle list. -/
def compute_summary (battles : List Battle) : Summary :=
  if battles.length = 0 then
    { games_played := 0, wins := 0, losses := 0, draws := 0, win_rate := 0 }
  else
    let total := battles.length
    let wins := battles.countP (fun b => decide (b.result = some ("win")))
    let losses := battles.countP (fun b => decide (b.result = some ("loss")))
    let draws := battles.countP (fun b => decide (b.result = some ("draw")))
    { games_played := total, wins := wins, losses := losses, draws := draws,
      win_rate := if 0 < total then (wins : ℚ) / (total : ℚ) else 0 }

/-- Dict lookup in the association-list model. -/
def lookupA {K : Type} [DecidableEq K] (k : K) : List (K × Stats) → Option Stats
  | [] => none
  | (k', v) :: rest => if k' = k then some v else lookupA k rest

lemma lookupA_updateAList_self {K : Type} [DecidableEq K] (k : K)
    (f : Stats → Stats) (acc : List (K × Stats)) :
    lookupA k (updateAList k f acc) = some (f ((lookupA k acc).getD {})) := by
  induction acc with
  | nil => simp [updateAList, lookupA]
  | cons p rest ih =>
    obtain ⟨k', v⟩ := p
    by_cases h : k' = k
    · subst h
      simp [updateAList, lookupA]
    · simp [updateAList, lookupA, h, ih]

lemma lookupA_updateAList_ne {K : Type} [DecidableEq K] {k k₀ : K}
    (h : k₀ ≠ k) (f : Stats → Stats) (acc : List (K × Stats)) :
    lookupA k (updateAList k₀ f acc) = lookupA k acc := by
  induction acc with
  | nil => simp [updateAList, lookupA, h]
  | cons p rest ih =>
    obtain ⟨k', v⟩ := p
    by_cases h' : k' = k₀
    · subst h'
      simp [updateAList, lookupA, h]
    · simp [updateAList, lookupA, h', ih]

lemma mem_keys_updateAList {K : Type} [DecidableEq K] (k' k : K)
    (f : Stats → Stats) (acc : List (K × Stats)) :
    k' ∈ (updateAList k f acc).map Prod.fst
      ↔ k' ∈ acc.map Prod.fst ∨ k' = k := by
  induction acc with
  | nil => simp [updateAList]
  | cons p rest ih =>
    obtain ⟨k₀, v⟩ := p
    by_cases h : k₀ = k
    · subst h
      by_cases h' : k' = k₀ <;> simp [updateAList, h', or_comm]
    · simp only [updateAList, if_neg h, List.map_cons, List.mem_cons, ih]
      tauto

lemma nodup_keys_updateAList {K : Type} [DecidableEq K] (k : K)
    (f : Stats → Stats) (acc : List (K × Stats))
    (hnd : (acc.map Prod.fst).Nodup) :
    ((updateAList k f acc).map Prod.fst).Nodup := by
  induction acc with
  | nil => simp [updateAList]
  | cons p rest ih =>
    obtain ⟨k₀, v⟩ := p
    simp only [List.map_cons, List.nodup_cons] at hnd
    by_cases h : k₀ = k
    · subst h
      have hstep : updateAList k₀ f ((k₀, v) :: rest) = (k₀, f v) :: rest := by
        simp [updateAList]
      rw [hstep]
      simpa using And.intro hnd.1 hnd.2
    · simp only [updateAList, if_neg h, List.map_cons, List.nodup_cons]
      refine ⟨?_, ih hnd.2⟩
      rw [mem_keys_updateAList]
      rintro (hmem | rfl)
      · exact hnd.1 hmem
      · exact h rfl

/-- Apply a per-bucket update for each result in order. -/
def applyAll (f : Option String → Stats → Stats) (rs : List (Option String))
    (s : Stats) : Stats :=
  rs.foldl (fun s r => f r s) s

/-- The results (in order) of the pairs carrying key `k`. -/
def resultsAt {K : Type} [DecidableEq K] (k : K)
    (pairs : List (K × Option String)) : List (Option String) :=
  (pairs.filter (fun kr => decide (kr.1 = k))).map Prod.snd

/-- What one aggregation pass does to the bucket stored at a fixed key,
as a function of the bucket's prior state. -/
def afterFold (f : Option String → Stats → Stats) (rs : List (Option String)) :
    Option Stats → Option Stats
  | some s => some (applyAll f rs s)
  | none => if rs = [] then none else some (applyAll f rs {})

lemma lookupA_foldl_agg {K : Type} [DecidableEq K]
    (f : Option String → Stats → Stats) :
    ∀ (pairs : List (K × Option String)) (acc : List (K × Stats)) (k : K),
    lookupA k (pairs.foldl (fun a kr => updateAList kr.1 (f kr.2) a) acc)
      = afterFold f (resultsAt k pairs) (lookupA k acc) := by
  intro pairs
  induction pairs with
  | nil =>
    intro acc k
    cases h : lookupA k acc <;> simp [afterFold, resultsAt, applyAll, h]
  | cons kr rest ih =>
    intro acc k
    obtain ⟨k₀, r₀⟩ := kr
    by_cases h : k₀ = k
    · subst h
      have hres : resultsAt k₀ ((k₀, r₀) :: rest) = r₀ :: resultsAt k₀ rest := by
        simp [resultsAt]
      rw [List.foldl_cons, ih, lookupA_updateAList_self, hres]
      cases hl : lookupA k₀ acc with
      | none => simp [afterFold, applyAll]
      | some s => simp [afterFold, applyAll]
    · have hres : resultsAt k ((k₀, r₀) :: rest) = resultsAt k rest := by
        simp [resultsAt, h]
      rw [List.foldl_cons, ih, lookupA_updateAList_ne h, hres]

lemma lookupA_aggregate {K : Type} [DecidableEq K]
    (f : Option String → Stats → Stats) (pairs : List (K × Option String)) (k : K) :
    lookupA k (aggregate f pairs)
      = if resultsAt k pairs = [] then none
        else some (applyAll f (resultsAt k pairs) {}) := by
  have h := lookupA_foldl_agg f pairs [] k
  simpa [aggregate, lookupA, afterFold] using h

lemma mem_keys_foldl_agg {K : Type} [DecidableEq K]
    (f : Option String → Stats → Stats) :
    ∀ (pairs : List (K × Option String)) (acc : List (K × Stats)) (k : K),
    k ∈ ((pairs.foldl (fun a kr => updateAList kr.1 (f kr.2) a) acc).map Prod.fst)
      ↔ k ∈ acc.map Prod.fst ∨ k ∈ pairs.map Prod.fst := by
  intro pairs
  induction pairs with
  | nil => intro acc k; simp
  | cons kr rest ih =>
    intro acc k
    obtain ⟨k₀, r₀⟩ := kr
    rw [List.foldl_cons, ih, mem_keys_updateAList]
    simp only [List.map_cons, List.mem_cons]
    tauto

lemma mem_keys_aggregate {K : Type} [DecidableEq K]
    (f : Option String → Stats → Stats) (pairs : List (K × Option String)) (k : K) :
    k ∈ (aggregate f pairs).map Prod.fst ↔ k ∈ pairs.map Prod.fst := by
  have h := mem_keys_foldl_agg f pairs [] k
  simpa [aggregate] using h

lemma nodup_keys_foldl_agg {K : Type} [DecidableEq K]
    (f : Option String → Stats → Stats) :
    ∀ (pairs : List (K × Option String)) (acc : List (K × Stats)),
    (acc.map Prod.fst).Nodup →
    ((pairs.foldl (fun a kr => updateAList kr.1 (f kr.2) a) acc).map Prod.fst).Nodup := by
  intro pairs
  induction pairs with
  | nil => intro acc h; simpa using h
  | cons kr rest ih =>
    intro acc h
    rw [List.foldl_cons]
    exact ih _ (nodup_keys_updateAList _ _ _ h)

lemma nodup_keys_aggregate {K : Type} [DecidableEq K]
    (f : Option String → Stats → Stats) (pairs : List (K × Option String)) :
    ((aggregate f pairs).map Prod.fst).Nodup :=
  nodup_keys_foldl_agg f pairs [] (by simp)

lemma lookupA_eq_some_of_mem {K : Type} [DecidableEq K]
    {l : List (K × Stats)} (hnd : (l.map Prod.fst).Nodup)
    {k : K} {s : Stats} (hmem : (k, s) ∈ l) :
    lookupA k l = some s := by
  induction l with
  | nil => cases hmem
  | cons p rest ih =>
    obtain ⟨k', v⟩ := p
    simp only [List.map_cons, List.nodup_cons] at hnd
    rcases List.mem_cons.mp hmem with heq | hrest
    · injection heq with h1 h2
      subst h1
      subst h2
      simp [lookupA]
    · have hne : k' ≠ k := by
        rintro rfl
        exact hnd.1 (List.mem_map.mpr ⟨(k', s), hrest, rfl⟩)
      simp only [lookupA, if_neg hne]
      exact ih hnd.2 hrest

lemma mem_of_lookupA_eq_some {K : Type} [DecidableEq K]
    {l : List (K × Stats)} {k : K} {s : Stats}
    (h : lookupA k l = some s) : (k, s) ∈ l := by
  induction l with
  | nil => simp [lookupA] at h
  | cons p rest ih =>
    obtain ⟨k', v⟩ := p
    by_cases h' : k' = k
    · subst h'
      simp only [lookupA, if_pos trivial, eq_self_iff_true, if_true] at h
      rw [show v = s from by simpa using h]
      exact List.mem_cons_self _ _
    · simp only [lookupA, if_neg h'] at h
      exact List.mem_cons_of_mem _ (ih h)

lemma mem_aggregate_iff {K : Type} [DecidableEq K]
    (f : Option String → Stats → Stats) (pairs : List (K × Option String))
    (k : K) (s : Stats) :
    (k, s) ∈ aggregate f pairs
      ↔ resultsAt k pairs ≠ [] ∧ s = applyAll f (resultsAt k pairs) {} := by
  constructor
  · intro h
    have hl := lookupA_eq_some_of_mem (nodup_keys_aggregate f pairs) h
    rw [lookupA_aggregate] at hl
    by_cases hres : resultsAt k pairs = []
    · simp [hres] at hl
    · simp only [if_neg hres, Option.some.injEq] at hl
      exact ⟨hres, hl.symm⟩
  · rintro ⟨hne, rfl⟩
    apply mem_of_lookupA_eq_some
    rw [lookupA_aggregate]
    simp [hne]

/-- Number of `"win"` results. -/
def cntW (rs : List (Option String)) : Nat :=
  rs.countP (fun r => decide (r = some ("win")))

/-- Number of `"loss"` results. -/
def cntL (rs : List (Option String)) : Nat :=
  rs.countP (fun r => decide (r = some ("loss")))

/-- Number of results that are neither `"win"` nor `"loss"`. -/
def cntD (rs : List (Option String)) : Nat :=
  rs.countP (fun r => decide (¬ r = some ("win") ∧ ¬ r = some ("loss")))

lemma applyAll_bump (rs : List (Option String)) : ∀ s : Stats,
    applyAll bump rs s
      = ⟨s.games + rs.length, s.wins + cntW rs, s.losses + cntL rs,
          s.draws + cntD rs⟩ := by
  induction rs with
  | nil =>
    intro s
    cases s
    simp [applyAll, cntW, cntL, cntD]
  | cons r rest ih =>
    intro s
    have hstep : applyAll bump (r :: rest) s = applyAll bump rest (bump r s) := rfl
    rw [hstep, ih]
    cases s
    by_cases h1 : r = some ("win")
    · simp [bump, h1, cntW, cntL, cntD, List.countP_cons, Stats.mk.injEq]
      try omega
    · by_cases h2 : r = some ("loss")
      · simp [bump, h1, h2, cntW, cntL, cntD, List.countP_cons, Stats.mk.injEq]
        try omega
      · simp [bump, h1, h2, cntW, cntL, cntD, List.countP_cons, Stats.mk.injEq]
        try omega

lemma applyAll_bumpInv (rs : List (Option String)) : ∀ s : Stats,
    applyAll bumpInv rs s
      = ⟨s.games + rs.length, s.wins + cntL rs, s.losses + cntW rs,
          s.draws + cntD rs⟩ := by
  induction rs with
  | nil =>
    intro s
    cases s
    simp [applyAll, cntW, cntL, cntD]
  | cons r rest ih =>
    intro s
    have hstep : applyAll bumpInv (r :: rest) s = applyAll bumpInv rest (bumpInv r s) := rfl
    rw [hstep, ih]
    cases s
    by_cases h1 : r = some ("win")
    · simp [bumpInv, h1, cntW, cntL, cntD, List.countP_cons, Stats.mk.injEq]
      try omega
    · by_cases h2 : r = some ("loss")
      · simp [bumpInv, h1, h2, cntW, cntL, cntD, List.countP_cons, Stats.mk.injEq]
        try omega
      · simp [bumpInv, h1, h2, cntW, cntL, cntD, List.countP_cons, Stats.mk.injEq]
        try omega

lemma keyLe_total (p q : ℚ × Nat) : keyLe p q ∨ keyLe q p := by
  rcases lt_trichotomy p.1 q.1 with h | h | h
  · exact Or.inl (Or.inl h)
  · rcases Nat.le_total p.2 q.2 with h2 | h2
    · exact Or.inl (Or.inr ⟨h, h2⟩)
    · exact Or.inr (Or.inr ⟨h.symm, h2⟩)
  · exact Or.inr (Or.inl h)

lemma keyLe_trans {p q r : ℚ × Nat} (h1 : keyLe p q) (h2 : keyLe q r) : keyLe p r := by
  rcases h1 with h1 | ⟨h1a, h1b⟩
  · rcases h2 with h2 | ⟨h2a, h2b⟩
    · exact Or.inl (h1.trans h2)
    · exact Or.inl (h2a ▸ h1)
  · rcases h2 with h2 | ⟨h2a, h2b⟩
    · exact Or.inl (h1a ▸ h2)
    · exact Or.inr ⟨h1a.trans h2a, h1b.trans h2b⟩

instance {K : Type} : IsTotal (StatRow K) rowDesc :=
  ⟨fun a b => keyLe_total (rowKey b) (rowKey a)⟩

instance {K : Type} : IsTrans (StatRow K) rowDesc :=
  ⟨fun _ _ _ hab hbc => keyLe_trans hbc hab⟩

instance {K : Type} : IsTotal (StatRow K) gamesDesc :=
  ⟨fun a b => Nat.le_total b.games a.games⟩

instance {K : Type} : IsTrans (StatRow K) gamesDesc :=
  ⟨fun _ _ _ hab hbc => Nat.le_trans hbc hab⟩

lemma sorted_finalize {K : Type} (stats : List (K × Stats)) (m : ℤ) :
    List.Sorted rowDesc (finalizeFilterSort stats m true) := by
  unfold finalizeFilterSort
  simpa using List.sorted_insertionSort rowDesc _

lemma mem_finalize {K : Type} (stats : List (K × Stats)) (m : ℤ) (sd : Bool)
    (row : StatRow K) :
    row ∈ finalizeFilterSort stats m sd
      ↔ ∃ p ∈ stats, ¬((p.2.games : ℤ) < m) ∧ row = mkRow p.1 p.2 := by
  unfold finalizeFilterSort
  have hmem : row ∈ stats.filterMap
        (fun p => if ((p.2.games : ℤ) < m) then none else some (mkRow p.1 p.2))
      ↔ ∃ p ∈ stats, ¬((p.2.games : ℤ) < m) ∧ row = mkRow p.1 p.2 := by
    rw [List.mem_filterMap]
    constructor
    · rintro ⟨p, hp, hsome⟩
      by_cases hg : ((p.2.games : ℤ) < m)
      · rw [if_pos hg] at hsome
        cases hsome
      · rw [if_neg hg] at hsome
        refine ⟨p, hp, hg, ?_⟩
        cases hsome
        rfl
    · rintro ⟨p, hp, hg, rfl⟩
      exact ⟨p, hp, by rw [if_neg hg]⟩
  cases sd
  · rw [if_neg (by simp), (List.perm_insertionSort rowAsc _).mem_iff]
    exact hmem
  · rw [if_pos rfl, (List.perm_insertionSort rowDesc _).mem_iff]
    exact hmem

/-- Total games stored in a stats dict. -/
def sumGames {K : Type} (l : List (K × Stats)) : Nat :=
  (l.map (fun p => p.2.games)).sum

lemma games_bump (r : Option String) (s : Stats) : (bump r s).games = s.games + 1 := by
  unfold bump
  split_ifs <;> rfl

lemma games_bumpInv (r : Option String) (s : Stats) : (bumpInv r s).games = s.games + 1 := by
  unfold bumpInv
  split_ifs <;> rfl

lemma sumGames_updateAList {K : Type} [DecidableEq K] (k : K)
    (f : Stats → Stats) (hf : ∀ s, (f s).games = s.games + 1)
    (acc : List (K × Stats)) :
    sumGames (updateAList k f acc) = sumGames acc + 1 := by
  induction acc with
  | nil => simp [updateAList, sumGames, hf]
  | cons p rest ih =>
    obtain ⟨k', v⟩ := p
    by_cases h : k' = k
    · subst h
      simp [updateAList, sumGames, hf]
      omega
    · simp [updateAList, sumGames, h] at ih ⊢
      omega

lemma sumGames_foldl_agg {K : Type} [DecidableEq K]
    (f : Option String → Stats → Stats) (hf : ∀ r s, (f r s).games = s.games + 1) :
    ∀ (pairs : List (K × Option String)) (acc : List (K × Stats)),
    sumGames (pairs.foldl (fun a kr => updateAList kr.1 (f kr.2) a) acc)
      = sumGames acc + pairs.length := by
  intro pairs
  induction pairs with
  | nil => intro acc; simp
  | cons kr rest ih =>
    intro acc
    rw [List.foldl_cons, ih, sumGames_updateAList kr.1 (f kr.2) (hf kr.2)]
    simp only [List.length_cons]
    omega

lemma sumGames_aggregate {K : Type} [DecidableEq K]
    (f : Option String → Stats → Stats) (hf : ∀ r s, (f r s).games = s.games + 1)
    (pairs : List (K × Option String)) :
    sumGames (aggregate f pairs) = pairs.length := by
  have h := sumGames_foldl_agg f hf pairs []
  simpa [aggregate, sumGames] using h

lemma sum_games_finalize_stats (raw : List (String × Stats)) :
    ((_finalize_stats raw).map (fun row => row.games)).sum = sumGames raw := by
  unfold _finalize_stats sumGames
  have hp : (List.insertionSort gamesDesc (raw.map (fun p => mkRow p.1 p.2))).Perm
      (raw.map (fun p => mkRow p.1 p.2)) := List.perm_insertionSort _ _
  rw [(hp.map (fun row => row.games)).sum_eq, List.map_map]
  rfl

/-- Claim C10: every battle lands in exactly one mine-side bucket and one
opponent-side bucket of `summarize_deck_types`, so the `games` of each
returned list sum to the number of battles. -/
theorem claim_C10 (tbl : CardTable) (battles : List Battle) :
    (((summarize_deck_types tbl battles).1).map (fun row => row.games)).sum
      = battles.length
    ∧ (((summarize_deck_types tbl battles).2).map (fun row => row.games)).sum
      = battles.length := by
  constructor
  · show ((_finalize_stats (aggregate bump (myTypePairs tbl battles))).map
        (fun row => row.games)).sum = battles.length
    rw [sum_games_finalize_stats, sumGames_aggregate bump games_bump]
    simp [myTypePairs]
  · show ((_finalize_stats (aggregate bump (oppTypePairs tbl battles))).map
        (fun row => row.games)).sum = battles.length
    rw [sum_games_finalize_stats, sumGames_aggregate bump games_bump]
    simp [oppTypePairs]

/-- Claim C2: whenever the card or deck engine produces its output
dict, the "worst"/"easy" lists are the exact reversals of the
"best"/"tough" lists, which are themselves stable-sorted descending by
the composite key `(win_rate, games)`. -/
theorem claim_C2 (battles : List Battle) (m : ℤ) :
    (compute_card_performance battles m).elim True (fun cp =>
      cp.worst_cards = cp.best_cards.reverse
      ∧ cp.easy_opp_cards = cp.tough_opp_cards.reverse
      ∧ List.Sorted rowDesc cp.best_cards
      ∧ List.Sorted rowDesc cp.tough_opp_cards)
    ∧ (compute_deck_performance battles m).elim True (fun dp =>
        dp.worst_decks = dp.best_decks.reverse
        ∧ dp.easy_matchups = dp.tough_matchups.reverse
        ∧ List.Sorted rowDesc dp.best_decks
        ∧ List.Sorted rowDesc dp.tough_matchups) := by
  constructor
  · by_cases hmix : (mixedMissing battles (fun b => b.my_cards)
        || mixedMissing battles (fun b => b.opp_cards)) = true
    · unfold compute_card_performance
      rw [if_pos hmix]
      exact trivial
    · unfold compute_card_performance
      rw [if_neg hmix]
      exact ⟨rfl, rfl, sorted_finalize _ _, sorted_finalize _ _⟩
  · cases hbr : battleRows battles with
    | none => simp [compute_deck_performance, hbr]
    | some rows =>
      unfold compute_deck_performance
      rw [hbr]
      exact ⟨rfl, rfl, sorted_finalize _ _, sorted_finalize _ _⟩

/-- Exactly one of the three result classes holds for each result, so
the three counters partition the result list. -/
lemma cnt_partition (rs : List (Option String)) :
    cntW rs + cntL rs + cntD rs = rs.length := by
  induction rs with
  | nil => simp [cntW, cntL, cntD]
  | cons r rest ih =>
    by_cases h1 : r = some ("win")
    · simp [cntW, cntL, cntD, List.countP_cons, h1] at ih ⊢
      omega
    · by_cases h2 : r = some ("loss")
      · simp [cntW, cntL, cntD, List.countP_cons, h1, h2] at ih ⊢
        omega
      · simp [cntW, cntL, cntD, List.countP_cons, h1, h2] at ih ⊢
        omega

/-- The bucket invariant of spec §3 on a finalized record:
`games = wins + losses + draws` and the win-rate law. -/
def rowOk {K : Type} (row : StatRow K) : Prop :=
  row.games = row.wins + row.losses + row.draws
  ∧ row.win_rate
    = (if 0 < row.games then (row.wins : ℚ) / (row.games : ℚ) else 0)

/-- All records of a finalized list satisfy the bucket invariant. -/
def bucketsOk {K : Type} (l : List (StatRow K)) : Prop := l.Forall rowOk

lemma bucketsOk_reverse {K : Type} {l : List (StatRow K)} (h : bucketsOk l) :
    bucketsOk l.reverse := by
  rw [bucketsOk, List.forall_iff_forall_mem] at h ⊢
  intro row hrow
  exact h row (List.mem_reverse.mp hrow)

lemma bucketsOk_finalize_bump {K : Type} [DecidableEq K]
    (pairs : List (K × Option String)) (m : ℤ) (sd : Bool) :
    bucketsOk (finalizeFilterSort (aggregate bump pairs) m sd) := by
  rw [bucketsOk, List.forall_iff_forall_mem]
  intro row hrow
  rcases (mem_finalize _ _ _ _).mp hrow with ⟨p, hp, hg, rfl⟩
  obtain ⟨k, s⟩ := p
  rcases (mem_aggregate_iff bump pairs k s).mp hp with ⟨hne, rfl⟩
  refine ⟨?_, rfl⟩
  rw [applyAll_bump]
  have := cnt_partition (resultsAt k pairs)
  simp only [mkRow]
  omega

lemma bucketsOk_finalize_bumpInv {K : Type} [DecidableEq K]
    (pairs : List (K × Option String)) (m : ℤ) (sd : Bool) :
    bucketsOk (finalizeFilterSort (aggregate bumpInv pairs) m sd) := by
  rw [bucketsOk, List.forall_iff_forall_mem]
  intro row hrow
  rcases (mem_finalize _ _ _ _).mp hrow with ⟨p, hp, hg, rfl⟩
  obtain ⟨k, s⟩ := p
  rcases (mem_aggregate_iff bumpInv pairs k s).mp hp with ⟨hne, rfl⟩
  refine ⟨?_, rfl⟩
  rw [applyAll_bumpInv]
  have := cnt_partition (resultsAt k pairs)
  simp only [mkRow]
  omega

lemma mem_finalize_stats (raw : List (String × Stats)) (row : StatRow String) :
    row ∈ _finalize_stats raw ↔ ∃ p ∈ raw, row = mkRow p.1 p.2 := by
  unfold _finalize_stats
  rw [(List.perm_insertionSort gamesDesc _).mem_iff, List.mem_map]
  constructor
  · rintro ⟨p, hp, rfl⟩
    exact ⟨p, hp, rfl⟩
  · rintro ⟨p, hp, rfl⟩
    exact ⟨p, hp, rfl⟩

lemma bucketsOk_finalize_stats_bump (pairs : List (String × Option String)) :
    bucketsOk (_finalize_stats (aggregate bump pairs)) := by
  rw [bucketsOk, List.forall_iff_forall_mem]
  intro row hrow
  rcases (mem_finalize_stats _ _).mp hrow with ⟨p, hp, rfl⟩
  obtain ⟨k, s⟩ := p
  rcases (mem_aggregate_iff bump pairs k s).mp hp with ⟨hne, rfl⟩
  refine ⟨?_, rfl⟩
  rw [applyAll_bump]
  have := cnt_partition (resultsAt k pairs)
  simp only [mkRow]
  omega

lemma summary_partition (battles : List Battle)
    (h : battles.all (fun b => decide (b.result = some ("win")
        ∨ b.result = some ("loss") ∨ b.result = some ("draw"))) = true) :
    battles.countP (fun b => decide (b.result = some ("win")))
    + battles.countP (fun b => decide (b.result = some ("loss")))
    + battles.countP (fun b => decide (b.result = some ("draw")))
    = battles.length := by
  induction battles with
  | nil => simp
  | cons b rest ih =>
    simp only [List.all_cons, Bool.and_eq_true] at h
    have hrec := ih h.2
    have hb := of_decide_eq_true h.1
    simp only [List.countP_cons, List.length_cons]
    rcases hb with h1 | h1 | h1 <;> simp [h1] <;> omega

/-- Claim C5, amended: every stat bucket the card, deck and archetype
summarizers produce satisfies `games = wins + losses + draws` and the
win-rate law, and the overall summary always satisfies the win-rate law; but the
overall summary satisfies `games = wins + losses + draws` only when
every battle's `result` is exactly one of `"win"`, `"loss"`, `"draw"`
(`compute_summary` counts exact matches, so an unrecognized result is
counted in `games_played` but in none of the three counters). -/
theorem claim_C5 (tbl : CardTable) (battles : List Battle) (mc md : ℤ) :
    (compute_card_performance battles mc).elim True (fun cp =>
      bucketsOk cp.best_cards ∧ bucketsOk cp.worst_cards
      ∧ bucketsOk cp.tough_opp_cards ∧ bucketsOk cp.easy_opp_cards)
    ∧ (compute_deck_performance battles md).elim True (fun dp =>
        bucketsOk dp.best_decks ∧ bucketsOk dp.worst_decks
        ∧ bucketsOk dp.tough_matchups ∧ bucketsOk dp.easy_matchups)
    ∧ bucketsOk (summarize_deck_types tbl battles).1
    ∧ bucketsOk (summarize_deck_types tbl battles).2
    ∧ (compute_summary battles).win_rate
      = (if 0 < (compute_summary battles).games_played
          then ((compute_summary battles).wins : ℚ)
            / ((compute_summary battles).games_played : ℚ)
          else 0)
    ∧ (if battles.all (fun b => decide (b.result = some ("win")
          ∨ b.result = some ("loss") ∨ b.result = some ("draw"))) = true
        then (compute_summary battles).games_played
          = (compute_summary battles).wins + (compute_summary battles).losses
            + (compute_summary battles).draws
        else True) := by
  refine ⟨?_,
    ?_,
    bucketsOk_finalize_stats_bump (myTypePairs tbl battles),
    bucketsOk_finalize_stats_bump (oppTypePairs tbl battles),
    ?_, ?_⟩
  · by_cases hmix : (mixedMissing battles (fun b => b.my_cards)
        || mixedMissing battles (fun b => b.opp_cards)) = true
    · unfold compute_card_performance
      rw [if_pos hmix]
      exact trivial
    · unfold compute_card_performance
      rw [if_neg hmix]
      exact ⟨bucketsOk_finalize_bump (rowsMy battles) mc true,
        bucketsOk_reverse (bucketsOk_finalize_bump (rowsMy battles) mc true),
        bucketsOk_finalize_bump (rowsOpp battles) mc true,
        bucketsOk_reverse (bucketsOk_finalize_bump (rowsOpp battles) mc true)⟩
  · cases hbr : battleRows battles with
    | none =>
      unfold compute_deck_performance
      rw [hbr]
      exact trivial
    | some rows =>
      unfold compute_deck_performance
      rw [hbr]
      exact ⟨bucketsOk_finalize_bump
          (rows.map (fun t : String × List String × List String =>
            (deck_key t.2.1, some t.1))) md true,
        bucketsOk_reverse (bucketsOk_finalize_bump
          (rows.map (fun t : String × List String × List String =>
            (deck_key t.2.1, some t.1))) md true),
        bucketsOk_finalize_bumpInv
          (rows.map (fun t : String × List String × List String =>
            (deck_key t.2.2, some t.1))) md true,
        bucketsOk_reverse (bucketsOk_finalize_bumpInv
          (rows.map (fun t : String × List String × List String =>
            (deck_key t.2.2, some t.1))) md true)⟩
  · by_cases hz : battles.length = 0
    · simp [compute_summary, hz]
    · simp [compute_summary, hz]
  · by_cases hall : battles.all (fun b => decide (b.result = some ("win")
        ∨ b.result = some ("loss") ∨ b.result = some ("draw"))) = true
    · rw [if_pos hall]
      by_cases hz : battles.length = 0
      · simp [compute_summary, hz]
      · have hpart := summary_partition battles hall
        simp only [compute_summary, if_neg hz]
        omega
    · rw [if_neg hall]
      trivial

/-- Counterexample to claim C5 as stated: a single battle whose result
string is `"Win"` (wrong case) gives an overall summary with
`games_played = 1` but `wins + losses + draws = 0`, violating the
claimed standing invariant for the overall summary bucket. -/
theorem claim_C5_cex :
    (compute_summary [(⟨some [], some [], some ("Win")⟩ : Battle)]).games_played = 1
    ∧ (compute_summary [(⟨some [], some [], some ("Win")⟩ : Battle)]).wins
      + (compute_summary [(⟨some [], some [], some ("Win")⟩ : Battle)]).losses
      + (compute_summary [(⟨some [], some [], some ("Win")⟩ : Battle)]).draws = 0 := by
  constructor <;> simp +decide [compute_summary]

/-- The data the archetype summarizer actually reads from one battle:
both card lists with a missing value defaulted to the empty list, and
the lowered result string with a missing value defaulted to `""`. -/
def battleView (b : Battle) : List String × List String × String :=
  (b.my_cards.getD [], b.opp_cards.getD [], resultLower b)

lemma battleRows_isSome (battles : List Battle) :
    (battleRows battles).isSome = true ↔ ∀ b ∈ battles, b.result.isSome = true := by
  induction battles with
  | nil => simp [battleRows]
  | cons b rest ih =>
    cases hr : b.result with
    | none => simp [battleRows, hr]
    | some r =>
      simp only [battleRows, hr, List.mem_cons]
      cases hrest : battleRows rest with
      | none =>
        simp only [hrest, Option.map_none', Option.isSome_none] at ih ⊢
        constructor
        · intro hfalse
          cases hfalse
        · intro hall
          exact absurd (fun b hb => hall b (Or.inr hb)) (by simpa using ih)
      | some rs =>
        simp only [hrest, Option.map_some', Option.isSome_some, true_iff] at ih ⊢
        intro b' hb'
        rcases hb' with rfl | hb'
        · simp [hr]
        · exact ih b' hb'

/-- A battle whose missing card fields are replaced by explicit empty
lists; on the card engine's non-raising path this change is invisible. -/
def fillEmptyCards (b : Battle) : Battle :=
  { my_cards := some (b.my_cards.getD [])
    opp_cards := some (b.opp_cards.getD [])
    result := b.result }

lemma any_map_comp (f : Battle → Battle) (p q : Battle → Bool)
    (hp : ∀ b, p (f b) = q b) :
    ∀ battles : List Battle, ((battles.map f).any p) = battles.any q := by
  intro battles
  induction battles with
  | nil => rfl
  | cons b rest ih => simp only [List.map_cons, List.any_cons, ih, hp]

lemma mixedMissing_map (f : Battle → Battle)
    (proj proj' : Battle → Option (List String))
    (hp : ∀ b, proj (f b) = proj' b) (battles : List Battle) :
    mixedMissing (battles.map f) proj = mixedMissing battles proj' := by
  unfold mixedMissing
  rw [any_map_comp f (fun b => (proj b).isNone) (fun b => (proj' b).isNone)
      (fun b => by show (proj (f b)).isNone = (proj' b).isNone; rw [hp b]) battles,
    any_map_comp f (fun b => (proj b).isSome) (fun b => (proj' b).isSome)
      (fun b => by show (proj (f b)).isSome = (proj' b).isSome; rw [hp b]) battles]

lemma mixedMissing_some (battles : List Battle) (g : Battle → List String) :
    mixedMissing battles (fun b => some (g b)) = false := by
  unfold mixedMissing
  have h1 : (battles.any fun b => (some (g b) : Option (List String)).isNone)
      = false := by
    induction battles with
    | nil => rfl
    | cons b rest ih => simp [ih]
  rw [h1]
  rfl

lemma guard_fillEmpty (battles : List Battle) :
    (mixedMissing (battles.map fillEmptyCards) (fun b => b.my_cards)
      || mixedMissing (battles.map fillEmptyCards) (fun b => b.opp_cards)) = false := by
  rw [mixedMissing_map fillEmptyCards (fun b => b.my_cards)
      (fun b => some (b.my_cards.getD [])) (fun b => rfl) battles,
    mixedMissing_map fillEmptyCards (fun b => b.opp_cards)
      (fun b => some (b.opp_cards.getD [])) (fun b => rfl) battles,
    mixedMissing_some battles (fun b => b.my_cards.getD []),
    mixedMissing_some battles (fun b => b.opp_cards.getD [])]
  rfl

lemma rowsMy_fillEmpty (battles : List Battle) :
    rowsMy (battles.map fillEmptyCards) = rowsMy battles := by
  unfold rowsMy
  induction battles with
  | nil => rfl
  | cons b rest ih =>
    simp only [List.map_cons, List.flatMap_cons, ih]
    rfl

lemma rowsOpp_fillEmpty (battles : List Battle) :
    rowsOpp (battles.map fillEmptyCards) = rowsOpp battles := by
  unfold rowsOpp
  induction battles with
  | nil => rfl
  | cons b rest ih =>
    simp only [List.map_cons, List.flatMap_cons, ih]
    rfl

/-- Claim C3, amended: the archetype summarizer never raises — missing
card lists are read as empty, the result is lowercased (its matching is
case-insensitive) and anything but win/loss counts as a draw.  The card
and deck engines likewise count an unrecognized or missing result value
as a draw, but their matching is case-sensitive (only the raw strings
`"win"`/`"loss"` are recognized), and missing battle fields can raise:
the deck engine raises `KeyError` (modelled as `none`) exactly when
some battle has no `result` key, and the card engine raises `TypeError`
(modelled as `none`) exactly when `my_cards` or `opp_cards` is absent
from some battle while present in another — the pandas `NaN` cell is
truthy and not iterable.  Only a field absent from every battle (a
`None`-filled column) is treated as the empty list, and on the
non-raising path replacing every missing card field by an explicit
empty list changes nothing. -/
theorem claim_C3 (tbl : CardTable) (battles : List Battle) (m : ℤ)
    (r : Option String) (s : Stats) (l1 l2 : List Battle)
    (h : l1.map battleView = l2.map battleView) :
    ((compute_deck_performance battles m).isSome = true
      ↔ ∀ b ∈ battles, b.result.isSome = true)
    ∧ (compute_card_performance battles m).isSome
      = (!(mixedMissing battles (fun b => b.my_cards))
          && !(mixedMissing battles (fun b => b.opp_cards)))
    ∧ (compute_card_performance battles m).elim True (fun cp =>
        compute_card_performance (battles.map fillEmptyCards) m = some cp)
    ∧ (bump r s).draws
      = (if r = some ("win") ∨ r = some ("loss") then s.draws else s.draws + 1)
    ∧ (bumpInv r s).draws
      = (if r = some ("win") ∨ r = some ("loss") then s.draws else s.draws + 1)
    ∧ summarize_deck_types tbl l1 = summarize_deck_types tbl l2 := by
  refine ⟨?_, ?_, ?_, ?_, ?_, ?_⟩
  · rw [show (compute_deck_performance battles m).isSome = (battleRows battles).isSome from by
      unfold compute_deck_performance
      cases battleRows battles <;> rfl]
    exact battleRows_isSome battles
  · unfold compute_card_performance
    cases hmy : mixedMissing battles (fun b => b.my_cards) <;>
      cases hopp : mixedMissing battles (fun b => b.opp_cards) <;>
        simp [hmy, hopp]
  · by_cases hmix : (mixedMissing battles (fun b => b.my_cards)
        || mixedMissing battles (fun b => b.opp_cards)) = true
    · unfold compute_card_performance
      rw [if_pos hmix]
      exact trivial
    · have hbody : compute_card_performance battles m
          = some (CardPerf.mk
              (_card_stats_from_rows (rowsMy battles) m true)
              ((_card_stats_from_rows (rowsMy battles) m true).reverse)
              (_card_stats_from_rows (rowsOpp battles) m true)
              ((_card_stats_from_rows (rowsOpp battles) m true).reverse)) := by
        unfold compute_card_performance
        rw [if_neg hmix]
      have hfilled : compute_card_performance (battles.map fillEmptyCards) m
          = some (CardPerf.mk
              (_card_stats_from_rows (rowsMy battles) m true)
              ((_card_stats_from_rows (rowsMy battles) m true).reverse)
              (_card_stats_from_rows (rowsOpp battles) m true)
              ((_card_stats_from_rows (rowsOpp battles) m true).reverse)) := by
        unfold compute_card_performance
        rw [guard_fillEmpty battles, if_neg (by simp : ¬ (false = true))]
        rw [rowsMy_fillEmpty, rowsOpp_fillEmpty]
      rw [hbody]
      exact hfilled
  · by_cases h1 : r = some ("win")
    · simp [bump, h1]
    · by_cases h2 : r = some ("loss")
      · simp [bump, h1, h2]
      · simp [bump, h1, h2]
  · by_cases h1 : r = some ("win")
    · simp [bumpInv, h1]
    · by_cases h2 : r = some ("loss")
      · simp [bumpInv, h1, h2]
      · simp [bumpInv, h1, h2]
  · have hmy : ∀ l : List Battle, myTypePairs tbl l
        = (l.map battleView).map (fun t => (classify_deck tbl t.1, some t.2.2)) := by
      intro l
      rw [List.map_map]
      rfl
    have hopp : ∀ l : List Battle, oppTypePairs tbl l
        = (l.map battleView).map (fun t => (classify_deck tbl t.2.1, some t.2.2)) := by
      intro l
      rw [List.map_map]
      rfl
    unfold summarize_deck_types
    rw [hmy l1, hmy l2, hopp l1, hopp l2, h]

/-- Witness for the amended claim C3 at concrete inputs: the empty
battle list for the deck and card engines, a missing result for the
bucket updates, and two one-battle lists that agree after defaulting
and lowercasing. -/
theorem claim_C3_witness :
    ((compute_deck_performance [] 3).isSome = true
      ↔ ∀ b ∈ ([] : List Battle), b.result.isSome = true)
    ∧ (compute_card_performance [] 3).isSome
      = (!(mixedMissing [] (fun b => b.my_cards))
          && !(mixedMissing [] (fun b => b.opp_cards)))
    ∧ (compute_card_performance [] 3).elim True (fun cp =>
        compute_card_performance (([] : List Battle).map fillEmptyCards) 3 = some cp)
    ∧ (bump none (⟨0, 0, 0, 0⟩ : Stats)).draws
      = (if (none : Option String) = some ("win") ∨ (none : Option String) = some ("loss")
          then (⟨0, 0, 0, 0⟩ : Stats).draws else (⟨0, 0, 0, 0⟩ : Stats).draws + 1)
    ∧ (bumpInv none (⟨0, 0, 0, 0⟩ : Stats)).draws
      = (if (none : Option String) = some ("win") ∨ (none : Option String) = some ("loss")
          then (⟨0, 0, 0, 0⟩ : Stats).draws else (⟨0, 0, 0, 0⟩ : Stats).draws + 1)
    ∧ summarize_deck_types (fun _ => {}) [(⟨none, some [], some ("draw")⟩ : Battle)]
      = summarize_deck_types (fun _ => {}) [(⟨some [], some [], some ("draw")⟩ : Battle)] :=
  claim_C3 (fun _ => {}) [] 3 none (⟨0, 0, 0, 0⟩ : Stats)
    [(⟨none, some [], some ("draw")⟩ : Battle)]
    [(⟨some [], some [], some ("draw")⟩ : Battle)] rfl

/-- Counterexample to claim C3 as stated: the card engine matches the
result case-sensitively, so the recognizable result `"Win"` is counted
as a draw (`draws = 1`, `wins = 0`) instead of a win; the deck engine
errors (`KeyError`, modelled as `none`) on a battle with no result
field instead of counting a draw; and the card engine errors
(`TypeError` on the truthy `NaN` cell, modelled as `none`) when one
battle lacks `my_cards` while another has it, instead of treating the
missing field as an empty sequence. -/
theorem claim_C3_cex :
    (compute_card_performance [(⟨some (["A"]), some [], some ("Win")⟩ : Battle)] 0).map
        (fun cp => cp.best_cards)
      = some [(⟨"A", 1, 0, 0, 1, 0⟩ : StatRow String)]
    ∧ compute_deck_performance [(⟨some (["A"]), some [], none⟩ : Battle)] 3 = none
    ∧ compute_card_performance
        [(⟨some (["A"]), some [], some ("win")⟩ : Battle),
         (⟨none, some [], some ("win")⟩ : Battle)] 3 = none := by
  refine ⟨?_, ?_, ?_⟩
  · simp +decide [compute_card_performance, mixedMissing, _card_stats_from_rows,
      aggregate, rowsMy, rowsOpp, updateAList, finalizeFilterSort, mkRow, winRate,
      bump, List.insertionSort, List.orderedInsert]
  · simp [compute_deck_performance, battleRows]
  · simp +decide [compute_card_performance, mixedMissing]

lemma games_applyAll (f : Option String → Stats → Stats)
    (hf : ∀ r s, (f r s).games = s.games + 1) (rs : List (Option String)) :
    ∀ s : Stats, (applyAll f rs s).games = s.games + rs.length := by
  induction rs with
  | nil => intro s; simp [applyAll]
  | cons r rest ih =>
    intro s
    have hstep : applyAll f (r :: rest) s = applyAll f rest (f r s) := rfl
    rw [hstep, ih, hf]
    simp only [List.length_cons]
    omega

lemma one_le_games_aggregate {K : Type} [DecidableEq K]
    (f : Option String → Stats → Stats)
    (hf : ∀ r s, (f r s).games = s.games + 1)
    (pairs : List (K × Option String)) :
    (aggregate f pairs).Forall (fun p => 1 ≤ p.2.games) := by
  rw [List.forall_iff_forall_mem]
  intro p hp
  obtain ⟨k, s⟩ := p
  rcases (mem_aggregate_iff f pairs k s).mp hp with ⟨hne, rfl⟩
  rw [games_applyAll f hf]
  have hlen : 0 < (resultsAt k pairs).length := List.length_pos.mpr hne
  omega

lemma mem_keys_finalize {K : Type} (stats : List (K × Stats)) (m : ℤ) (sd : Bool)
    (k : K) :
    k ∈ (finalizeFilterSort stats m sd).map (fun row => row.key)
      ↔ ∃ s, (k, s) ∈ stats ∧ m ≤ (s.games : ℤ) := by
  simp only [List.mem_map]
  constructor
  · rintro ⟨row, hrow, rfl⟩
    rcases (mem_finalize _ _ _ _).mp hrow with ⟨p, hp, hg, rfl⟩
    exact ⟨p.2, hp, by omega⟩
  · rintro ⟨s, hmem, hge⟩
    exact ⟨mkRow k s,
      (mem_finalize _ _ _ _).mpr
        ⟨(k, s), hmem, by show ¬((s.games : ℤ) < m); omega, rfl⟩, rfl⟩

lemma filterMap_keep {K : Type} (stats : List (K × Stats)) (m : ℤ)
    (h : ∀ p ∈ stats, ¬((p.2.games : ℤ) < m)) :
    stats.filterMap
        (fun p => if ((p.2.games : ℤ) < m) then none else some (mkRow p.1 p.2))
      = stats.map (fun p => mkRow p.1 p.2) := by
  induction stats with
  | nil => rfl
  | cons p rest ih =>
    have hcond := h p (List.mem_cons_self _ _)
    simp only [List.filterMap_cons, List.map_cons, if_neg hcond]
    rw [ih (fun q hq => h q (List.mem_cons_of_mem _ hq))]

/-- Claim C9: a key appears in a filtered card/deck output iff its
accumulated bucket has `games ≥ min_games`; every accumulated bucket
has at least one game; and with `min_games ≤ 1` the card output keeps
exactly the accumulated keys (nothing with at least one game is
dropped). -/
theorem claim_C9 (rows : List (String × Option String))
    (dstats : List (List String × Stats))
    (pairs : List (List String × Option String))
    (m : ℤ) (k : String) (dk : List String) :
    (k ∈ (_card_stats_from_rows rows m true).map (fun row => row.key)
      ↔ ∃ s, (k, s) ∈ aggregate bump rows ∧ m ≤ (s.games : ℤ))
    ∧ (dk ∈ (_deck_dicts dstats m).map (fun row => row.key)
      ↔ ∃ s, (dk, s) ∈ dstats ∧ m ≤ (s.games : ℤ))
    ∧ (aggregate bump pairs).Forall (fun p => 1 ≤ p.2.games)
    ∧ (aggregate bumpInv pairs).Forall (fun p => 1 ≤ p.2.games)
    ∧ (if m ≤ 1
        then ((_card_stats_from_rows rows m true).map (fun row => row.key)).Perm
          ((aggregate bump rows).map Prod.fst)
        else True) := by
  refine ⟨mem_keys_finalize (aggregate bump rows) m true k,
    mem_keys_finalize dstats m true dk,
    one_le_games_aggregate bump games_bump pairs,
    one_le_games_aggregate bumpInv games_bumpInv pairs,
    ?_⟩
  by_cases hm : m ≤ 1
  · rw [if_pos hm]
    have hall : ∀ p ∈ aggregate bump rows, ¬((p.2.games : ℤ) < m) := by
      have hforall := one_le_games_aggregate bump games_bump rows
      rw [List.forall_iff_forall_mem] at hforall
      intro p hp
      have := hforall p hp
      omega
    have hout : _card_stats_from_rows rows m true
        = List.insertionSort rowDesc
            ((aggregate bump rows).map (fun p => mkRow p.1 p.2)) := by
      show finalizeFilterSort (aggregate bump rows) m true
        = List.insertionSort rowDesc
            ((aggregate bump rows).map (fun p => mkRow p.1 p.2))
      unfold finalizeFilterSort
      rw [if_pos rfl, filterMap_keep _ m hall]
    rw [hout]
    have hperm := (List.perm_insertionSort rowDesc
      ((aggregate bump rows).map (fun p => mkRow p.1 p.2))).map (fun row => row.key)
    refine hperm.trans ?_
    rw [List.map_map]
    exact List.Perm.refl _
  · rw [if_neg hm]
    trivial

/-- The battle with the two sides swapped and the result kept. -/
def swapSides (b : Battle) : Battle :=
  { my_cards := b.opp_cards, opp_cards := b.my_cards, result := b.result }

/-- The archetype of the player's own deck in a battle. -/
def myLabel (tbl : CardTable) (b : Battle) : String :=
  classify_deck tbl (b.my_cards.getD [])

/-- The archetype of the opponent's deck in a battle. -/
def oppLabel (tbl : CardTable) (b : Battle) : String :=
  classify_deck tbl (b.opp_cards.getD [])

/-- Spec-side characterization of one archetype record: among the
battles whose deck (as selected by `lab`) classifies to this record's
archetype, `games` counts all of them and `wins`/`losses`/`draws` count
the player's own lowered results — nothing is inverted. -/
def typeRowCounts (battles : List Battle) (lab : Battle → String)
    (row : StatRow String) : Prop :=
  row.games = (battles.filter (fun b => decide (lab b = row.key))).length
  ∧ row.wins = (battles.filter (fun b => decide (lab b = row.key))).countP
      (fun b => decide (resultLower b = "win"))
  ∧ row.losses = (battles.filter (fun b => decide (lab b = row.key))).countP
      (fun b => decide (resultLower b = "loss"))
  ∧ row.draws = (battles.filter (fun b => decide (lab b = row.key))).countP
      (fun b => decide (¬ resultLower b = "win" ∧ ¬ resultLower b = "loss"))

lemma resultsAt_map_pairs {K A : Type} [DecidableEq K] (k : K) (l : List A)
    (lab : A → K) (res : A → Option String) :
    resultsAt k (l.map (fun a => (lab a, res a)))
      = (l.filter (fun a => decide (lab a = k))).map res := by
  unfold resultsAt
  rw [List.filter_map, List.map_map]
  rfl

lemma counts_finalize_bump (battles : List Battle) (lab : Battle → String) :
    (_finalize_stats (aggregate bump
        (battles.map (fun b => (lab b, some (resultLower b)))))).Forall
      (typeRowCounts battles lab) := by
  rw [List.forall_iff_forall_mem]
  intro row hrow
  rcases (mem_finalize_stats _ _).mp hrow with ⟨p, hp, rfl⟩
  obtain ⟨k, s⟩ := p
  rcases (mem_aggregate_iff bump _ k s).mp hp with ⟨hne, rfl⟩
  have hrs : resultsAt k (battles.map (fun b => (lab b, some (resultLower b))))
      = (battles.filter (fun b => decide (lab b = k))).map
          (fun b => some (resultLower b)) :=
    resultsAt_map_pairs k battles lab (fun b => some (resultLower b))
  refine ⟨?_, ?_, ?_, ?_⟩
  · simp only [mkRow, applyAll_bump, hrs, List.length_map]
    omega
  · simp only [mkRow, applyAll_bump, hrs, cntW, List.countP_map]
    simp only [Function.comp_def, Option.some.injEq]
    omega
  · simp only [mkRow, applyAll_bump, hrs, cntL, List.countP_map]
    simp only [Function.comp_def, Option.some.injEq]
    omega
  · simp only [mkRow, applyAll_bump, hrs, cntD, List.countP_map]
    simp only [Function.comp_def, Option.some.injEq]
    omega

lemma sorted_finalize_stats (raw : List (String × Stats)) :
    List.Sorted gamesDesc (_finalize_stats raw) := by
  unfold _finalize_stats
  exact List.sorted_insertionSort gamesDesc _

lemma keys_finalize_stats_perm_dedup (battles : List Battle) (lab : Battle → String) :
    ((_finalize_stats (aggregate bump
        (battles.map (fun b => (lab b, some (resultLower b)))))).map
      (fun row => row.key)).Perm ((battles.map lab).dedup) := by
  have h1 : ((_finalize_stats (aggregate bump
      (battles.map (fun b => (lab b, some (resultLower b)))))).map
        (fun row => row.key)).Perm
      ((aggregate bump (battles.map (fun b => (lab b, some (resultLower b))))).map
        Prod.fst) := by
    unfold _finalize_stats
    refine ((List.perm_insertionSort gamesDesc _).map (fun row => row.key)).trans ?_
    rw [List.map_map]
    exact List.Perm.refl _
  apply h1.trans
  rw [List.perm_ext_iff_of_nodup (nodup_keys_aggregate _ _) (List.nodup_dedup _)]
  intro a
  rw [List.mem_dedup, mem_keys_aggregate, List.map_map]
  exact Iff.rfl

/-- Claim C6: in `summarize_deck_types` the opponent-side buckets are
fed the player's own, non-inverted result — the opponent summary equals
the mine summary of the side-swapped battles, and each bucket's
`wins` counts the player's lowered `"win"` results against that
archetype; both outputs are unfiltered (their keys are exactly the
archetypes occurring among the battles) and sorted by `games`
descending, not by win rate. -/
theorem claim_C6 (tbl : CardTable) (battles : List Battle) :
    (summarize_deck_types tbl battles).2
      = (summarize_deck_types tbl (battles.map swapSides)).1
    ∧ ((summarize_deck_types tbl battles).2).Forall
        (typeRowCounts battles (oppLabel tbl))
    ∧ ((summarize_deck_types tbl battles).1).Forall
        (typeRowCounts battles (myLabel tbl))
    ∧ List.Sorted gamesDesc (summarize_deck_types tbl battles).1
    ∧ List.Sorted gamesDesc (summarize_deck_types tbl battles).2
    ∧ (((summarize_deck_types tbl battles).1).map (fun row => row.key)).Perm
        ((battles.map (myLabel tbl)).dedup)
    ∧ (((summarize_deck_types tbl battles).2).map (fun row => row.key)).Perm
        ((battles.map (oppLabel tbl)).dedup) := by
  refine ⟨?_, counts_finalize_bump battles (oppLabel tbl),
    counts_finalize_bump battles (myLabel tbl),
    sorted_finalize_stats _, sorted_finalize_stats _,
    keys_finalize_stats_perm_dedup battles (myLabel tbl),
    keys_finalize_stats_perm_dedup battles (oppLabel tbl)⟩
  show _finalize_stats (aggregate bump (oppTypePairs tbl battles))
    = _finalize_stats (aggregate bump (myTypePairs tbl (battles.map swapSides)))
  rw [show myTypePairs tbl (battles.map swapSides) = oppTypePairs tbl battles from by
    unfold myTypePairs oppTypePairs
    rw [List.map_map]
    rfl]

/-- The battle with sides swapped and the player's result replaced by
its inversion (always a present value, as the engines construct it). -/
def swapInvert (b : Battle) : Battle :=
  { my_cards := b.opp_cards, opp_cards := b.my_cards,
    result := some (invert_result b.result) }

lemma bumpInv_eq_bump (r : Option String) (s : Stats) :
    bumpInv r s = bump (some (invert_result r)) s := by
  by_cases h1 : r = some ("win")
  · simp +decide [bumpInv, bump, invert_result, h1]
  · by_cases h2 : r = some ("loss")
    · simp +decide [bumpInv, bump, invert_result, h1, h2]
    · simp +decide [bumpInv, bump, invert_result, h1, h2]

lemma rowsMy_swapInvert (battles : List Battle) :
    rowsMy (battles.map swapInvert) = rowsOpp battles := by
  unfold rowsMy rowsOpp
  induction battles with
  | nil => rfl
  | cons b rest ih =>
    simp only [List.map_cons, List.flatMap_cons, ih]
    rfl

lemma foldl_agg_invert {A K : Type} [DecidableEq K] (key : A → K)
    (res : A → Option String) :
    ∀ (l : List A) (acc : List (K × Stats)),
    (l.map (fun a => (key a, res a))).foldl
        (fun acc kr => updateAList kr.1 (bumpInv kr.2) acc) acc
      = (l.map (fun a => (key a, some (invert_result (res a))))).foldl
        (fun acc kr => updateAList kr.1 (bump kr.2) acc) acc := by
  intro l
  induction l with
  | nil => intro acc; rfl
  | cons a rest ih =>
    intro acc
    simp only [List.map_cons, List.foldl_cons]
    have hfun : bumpInv (res a) = bump (some (invert_result (res a))) :=
      funext (fun s => bumpInv_eq_bump (res a) s)
    rw [hfun]
    exact ih _

lemma aggregate_invert {A K : Type} [DecidableEq K] (l : List A) (key : A → K)
    (res : A → Option String) :
    aggregate bumpInv (l.map (fun a => (key a, res a)))
      = aggregate bump (l.map (fun a => (key a, some (invert_result (res a))))) :=
  foldl_agg_invert key res l []

lemma battleRows_swapInvert (battles : List Battle) :
    ∀ rows, battleRows battles = some rows →
    battleRows (battles.map swapInvert)
      = some (rows.map (fun t => (invert_result (some t.1), t.2.2, t.2.1))) := by
  induction battles with
  | nil =>
    intro rows h
    simp only [battleRows, Option.some.injEq] at h
    subst h
    rfl
  | cons b rest ih =>
    intro rows h
    cases hr : b.result with
    | none =>
      rw [show battleRows (b :: rest) = none from by simp [battleRows, hr]] at h
      cases h
    | some r0 =>
      rw [show battleRows (b :: rest) = (battleRows rest).map
          (fun rs => (r0, b.my_cards.getD [], b.opp_cards.getD []) :: rs)
        from by simp [battleRows, hr]] at h
      cases hrest : battleRows rest with
      | none =>
        rw [hrest] at h
        cases h
      | some rs =>
        rw [hrest, Option.map_some', Option.some.injEq] at h
        subst h
        have hstep : battleRows (swapInvert b :: rest.map swapInvert)
            = (battleRows (rest.map swapInvert)).map
              (fun rs => (invert_result b.result, b.opp_cards.getD [],
                b.my_cards.getD []) :: rs) := by
          simp [battleRows, swapInvert]
        rw [List.map_cons, hstep, ih rs hrest, Option.map_some', hr]
        rfl

/-- Claim C7: in the card and deck engines every opponent-side bucket
update applies the inversion `win ↦ loss, loss ↦ win, draw ↦ draw` to
the player's result, while mine-side buckets take the result unchanged:
the card engine's opponent output (or its raising) coincides with the
mine output (or raising) on the side-swapped, result-inverted battles,
the deck engine's opponent update is literally `bump` after
`invert_result`, and likewise at the whole-engine level for the deck
engine when every battle has a result. -/
theorem claim_C7 (battles : List Battle) (m : ℤ) (r : Option String) (s : Stats) :
    invert_result (some ("win")) = "loss"
    ∧ invert_result (some ("loss")) = "win"
    ∧ invert_result (some ("draw")) = "draw"
    ∧ bumpInv r s = bump (some (invert_result r)) s
    ∧ (compute_card_performance battles m).map (fun cp => cp.tough_opp_cards)
      = (compute_card_performance (battles.map swapInvert) m).map
        (fun cp => cp.best_cards)
    ∧ (compute_card_performance battles m).map (fun cp => cp.easy_opp_cards)
      = (compute_card_performance (battles.map swapInvert) m).map
        (fun cp => cp.worst_cards)
    ∧ (if battles.all (fun b => b.result.isSome) = true
        then (compute_deck_performance battles m).map (fun dp => dp.tough_matchups)
          = (compute_deck_performance (battles.map swapInvert) m).map
            (fun dp => dp.best_decks)
        else True) := by
  have hguard : (mixedMissing (battles.map swapInvert) (fun b => b.my_cards)
      || mixedMissing (battles.map swapInvert) (fun b => b.opp_cards))
      = (mixedMissing battles (fun b => b.my_cards)
      || mixedMissing battles (fun b => b.opp_cards)) := by
    rw [mixedMissing_map swapInvert (fun b => b.my_cards) (fun b => b.opp_cards)
        (fun b => rfl) battles,
      mixedMissing_map swapInvert (fun b => b.opp_cards) (fun b => b.my_cards)
        (fun b => rfl) battles,
      Bool.or_comm]
  have hpair : (compute_card_performance battles m).map (fun cp => cp.tough_opp_cards)
        = (compute_card_performance (battles.map swapInvert) m).map
          (fun cp => cp.best_cards)
      ∧ (compute_card_performance battles m).map (fun cp => cp.easy_opp_cards)
        = (compute_card_performance (battles.map swapInvert) m).map
          (fun cp => cp.worst_cards) := by
    unfold compute_card_performance
    by_cases hmix : (mixedMissing battles (fun b => b.my_cards)
        || mixedMissing battles (fun b => b.opp_cards)) = true
    · rw [if_pos hmix, if_pos (show (mixedMissing (battles.map swapInvert)
          (fun b => b.my_cards) || mixedMissing (battles.map swapInvert)
          (fun b => b.opp_cards)) = true from by rw [hguard]; exact hmix)]
      exact ⟨rfl, rfl⟩
    · rw [if_neg hmix, if_neg (show ¬ (mixedMissing (battles.map swapInvert)
          (fun b => b.my_cards) || mixedMissing (battles.map swapInvert)
          (fun b => b.opp_cards)) = true from by rw [hguard]; exact hmix)]
      constructor
      · simp only [Option.map_some']
        refine congrArg some ?_
        show _card_stats_from_rows (rowsOpp battles) m true
          = _card_stats_from_rows (rowsMy (battles.map swapInvert)) m true
        rw [rowsMy_swapInvert]
      · simp only [Option.map_some']
        refine congrArg some ?_
        show (_card_stats_from_rows (rowsOpp battles) m true).reverse
          = (_card_stats_from_rows (rowsMy (battles.map swapInvert)) m true).reverse
        rw [rowsMy_swapInvert]
  refine ⟨by simp +decide [invert_result], by simp +decide [invert_result],
    by simp +decide [invert_result], bumpInv_eq_bump r s, hpair.1, hpair.2, ?_⟩
  · by_cases hall : battles.all (fun b => b.result.isSome) = true
    · rw [if_pos hall]
      have hex : (battleRows battles).isSome = true := by
        rw [battleRows_isSome]
        intro b hb
        rw [List.all_eq_true] at hall
        exact hall b hb
      obtain ⟨rows, hrows⟩ := Option.isSome_iff_exists.mp hex
      have hrows' := battleRows_swapInvert battles rows hrows
      unfold compute_deck_performance
      rw [hrows, hrows']
      simp only [Option.map_some']
      refine congrArg some ?_
      show _deck_dicts (aggregate bumpInv
          (rows.map (fun t => (deck_key t.2.2, some t.1)))) m
        = _deck_dicts (aggregate bump
          ((rows.map (fun t => (invert_result (some t.1), t.2.2, t.2.1))).map
            (fun t => (deck_key t.2.1, some t.1)))) m
      rw [List.map_map,
        aggregate_invert rows
          (fun t : String × List String × List String => deck_key t.2.2)
          (fun t => some t.1)]
      rfl
    · rw [if_neg hall]
      trivial

/-- The battle with `my_cards` replaced by its sorted version — an
explicit permutation of the same multiset of card names. -/
def sortMyCards (b : Battle) : Battle :=
  { b with my_cards := some (deck_key (b.my_cards.getD [])) }

lemma deck_key_idem (l : List String) : deck_key (deck_key l) = deck_key l :=
  List.Sorted.insertionSort_eq (List.sorted_insertionSort _ l)

lemma deck_key_eq_iff (l1 l2 : List String) :
    deck_key l1 = deck_key l2 ↔ l1.Perm l2 := by
  constructor
  · intro h
    have h1 : (deck_key l1).Perm l1 := List.perm_insertionSort _ l1
    have h2 : (deck_key l2).Perm l2 := List.perm_insertionSort _ l2
    refine h1.symm.trans ?_
    rw [h]
    exact h2
  · intro hperm
    apply List.eq_of_perm_of_sorted (r := (· ≤ ·))
    · exact (List.perm_insertionSort _ l1).trans
        (hperm.trans (List.perm_insertionSort _ l2).symm)
    · exact List.sorted_insertionSort _ _
    · exact List.sorted_insertionSort _ _

lemma battleRows_sortMyCards (battles : List Battle) :
    battleRows (battles.map sortMyCards)
      = (battleRows battles).map
          (List.map (fun t => (t.1, deck_key t.2.1, t.2.2))) := by
  induction battles with
  | nil => rfl
  | cons b rest ih =>
    cases hr : b.result with
    | none => simp [battleRows, sortMyCards, hr]
    | some r0 =>
      cases hrest : battleRows rest with
      | none =>
        rw [hrest] at ih
        simp [battleRows, sortMyCards, hr, hrest, ih]
      | some rs =>
        rw [hrest] at ih
        simp only [List.map_cons, battleRows, sortMyCards, hr, hrest, ih,
          Option.map_some']
        rfl

/-- Claim C8: the deck bucket key is the sorted card list, so two
battles whose `my_cards` are permutations of each other (equal
multisets, duplicates counted) land in the same bucket and unequal
multisets land in distinct buckets: `deck_key` is equal exactly on
permutations, and replacing each battle's `my_cards` by its sorted
permutation leaves `compute_deck_performance` unchanged. -/
theorem claim_C8 (l1 l2 : List String) (battles : List Battle) (m : ℤ) :
    (deck_key l1 = deck_key l2 ↔ l1.Perm l2)
    ∧ compute_deck_performance (battles.map sortMyCards) m
      = compute_deck_performance battles m := by
  refine ⟨deck_key_eq_iff l1 l2, ?_⟩
  unfold compute_deck_performance
  rw [battleRows_sortMyCards]
  cases hrows : battleRows battles with
  | none => rfl
  | some rows =>
    simp only [Option.map_some']
    refine congrArg some ?_
    have hmy : ((rows.map (fun t => (t.1, deck_key t.2.1, t.2.2))).map
          (fun t : String × List String × List String => (deck_key t.2.1, some t.1)))
        = rows.map
          (fun t : String × List String × List String => (deck_key t.2.1, some t.1)) := by
      rw [List.map_map]
      refine congrArg (fun f => List.map f rows) ?_
      funext t
      show (deck_key (deck_key t.2.1), some t.1) = (deck_key t.2.1, some t.1)
      rw [deck_key_idem]
    have hopp : ((rows.map (fun t => (t.1, deck_key t.2.1, t.2.2))).map
          (fun t : String × List String × List String => (deck_key t.2.2, some t.1)))
        = rows.map
          (fun t : String × List String × List String => (deck_key t.2.2, some t.1)) := by
      rw [List.map_map]
      rfl
    show DeckPerf.mk
        (_deck_dicts (aggregate bump ((rows.map (fun t => (t.1, deck_key t.2.1, t.2.2))).map
          (fun t : String × List String × List String => (deck_key t.2.1, some t.1)))) m)
        ((_deck_dicts (aggregate bump ((rows.map (fun t => (t.1, deck_key t.2.1, t.2.2))).map
          (fun t : String × List String × List String => (deck_key t.2.1, some t.1)))) m).reverse)
        (_deck_dicts (aggregate bumpInv ((rows.map (fun t => (t.1, deck_key t.2.1, t.2.2))).map
          (fun t : String × List String × List String => (deck_key t.2.2, some t.1)))) m)
        ((_deck_dicts (aggregate bumpInv ((rows.map (fun t => (t.1, deck_key t.2.1, t.2.2))).map
          (fun t : String × List String × List String => (deck_key t.2.2, some t.1)))) m).reverse)
      = DeckPerf.mk
        (_deck_dicts (aggregate bump (rows.map
          (fun t : String × List String × List String => (deck_key t.2.1, some t.1)))) m)
        ((_deck_dicts (aggregate bump (rows.map
          (fun t : String × List String × List String => (deck_key t.2.1, some t.1)))) m).reverse)
        (_deck_dicts (aggregate bumpInv (rows.map
          (fun t : String × List String × List String => (deck_key t.2.2, some t.1)))) m)
        ((_deck_dicts (aggregate bumpInv (rows.map
          (fun t : String × List String × List String => (deck_key t.2.2, some t.1)))) m).reverse)
    rw [hmy, hopp]
